import Mathlib

/-!
Verification of the reconciliation core of the restaurant data pipeline
(`scripts/process_data.py`, `scripts/models.py` and the three source
transformers).  The Python functions are shallowly embedded as executable
Lean definitions; Python strings are Lean `String`s (both are sequences of
Unicode scalar values), Python `int` is `Int`, dictionaries are association
lists looked up by first match (Python dicts have unique keys, which the
embeddings preserve), and code that can raise is modelled with `Except`.
-/

namespace ClaveModel

/-! ## Python string primitives

Helpers mirroring the Python string operations used by the pipeline:
`str.strip`, `str.lower`, `str.replace`, the `in` substring test, and the
regular expressions `[^\x00-\x7F]+` (non-ASCII removal) and `\s+`
(whitespace collapse).  After the non-ASCII filter only ASCII characters
remain, so the ASCII-only `Char.toLower` agrees with Python `str.lower`
everywhere these helpers are applied.
-/

/-- Characters stripped by Python `str.strip()` and matched by `\s`:
the ASCII whitespace and the Unicode whitespace code points. -/
def isPySpace (c : Char) : Bool :=
  c = ' ' || c = '\t' || c = '\n' || c = '\r' || c.toNat = 0x0b || c.toNat = 0x0c
  || c.toNat = 0x1c || c.toNat = 0x1d || c.toNat = 0x1e || c.toNat = 0x1f
  || c.toNat = 0x85 || c.toNat = 0xa0 || c.toNat = 0x1680
  || (0x2000 ≤ c.toNat && c.toNat ≤ 0x200a)
  || c.toNat = 0x2028 || c.toNat = 0x2029 || c.toNat = 0x202f
  || c.toNat = 0x205f || c.toNat = 0x3000

/-- Python `str.strip()` on a character list. -/
def pyStripList (cs : List Char) : List Char :=
  ((cs.dropWhile isPySpace).reverse.dropWhile isPySpace).reverse

/-- Python `str.lower()` (ASCII case mapping; all call sites feed ASCII). -/
def pyLower (s : String) : String :=
  String.mk (s.toList.map Char.toLower)

/-- Does the first list start with the second?  (Pattern, then text.) -/
def listStartsWith : List Char → List Char → Bool
  | [], _ => true
  | _ :: _, [] => false
  | a :: as, b :: bs => a = b && listStartsWith as bs

/-- Substring containment on character lists (pattern first). -/
def containsSub (needle : List Char) : List Char → Bool
  | [] => needle.isEmpty
  | c :: cs => listStartsWith needle (c :: cs) || containsSub needle cs

/-- Python `needle in hay` for strings. -/
def strContains (hay needle : String) : Bool :=
  containsSub needle.toList hay.toList

/-- Python `str.replace(pat, rep)`: replace every non-overlapping occurrence
left to right, continuing after each replacement.  Structural recursion on a
fuel argument (each step consumes at least one character, so fuel equal to
the text length is enough and the fuel-exhausted branch is unreachable).
All patterns used by the pipeline are non-empty; an empty pattern is treated
as a no-op. -/
def replaceAllFuel (pat rep : List Char) : Nat → List Char → List Char
  | _, [] => []
  | 0, l => l
  | fuel + 1, c :: cs =>
    if pat ≠ [] && listStartsWith pat (c :: cs) then
      rep ++ replaceAllFuel pat rep fuel (cs.drop (pat.length - 1))
    else
      c :: replaceAllFuel pat rep fuel cs

/-- Python `str.replace(pat, rep)` on character lists. -/
def replaceAll (pat rep cs : List Char) : List Char :=
  replaceAllFuel pat rep cs.length cs

/-- The regex `\s+` collapsed to a single space (`CLEANUP_PATTERN.sub` in
`process_data.py`), via a previous-was-space accumulator. -/
def collapseWsAux : Bool → List Char → List Char
  | _, [] => []
  | prevSpace, c :: cs =>
    if isPySpace c then
      if prevSpace then collapseWsAux true cs
      else ' ' :: collapseWsAux true cs
    else c :: collapseWsAux false cs

/-- `CLEANUP_PATTERN.sub(' ', s)`: collapse whitespace runs to one space. -/
def collapseWs (cs : List Char) : List Char :=
  collapseWsAux false cs

/-! ## Text cleaning (`clean_text` in `process_data.py`) -/

/-- The `TYPO_CORRECTIONS` dict of `process_data.py`, in source order. -/
def TYPO_CORRECTIONS : List (String × String) :=
  [ ("griled chiken", "grilled chicken")
  , ("griled chicken", "grilled chicken")
  , ("griled chicken sandwhich", "grilled chicken sandwich")
  , ("sandwhich", "sandwich")
  , ("expresso", "espresso")
  , ("coffe", "coffee")
  , ("appitizers", "appetizers")
  , ("hashbrowns", "hash browns")
  , ("churos", "churros") ]

/-- `clean_text`: guard empty/whitespace-only input to `"unknown"`, remove
non-ASCII characters (`EMOJI_PATTERN`), collapse whitespace and strip,
lowercase, then apply the ordered typo substring replacements. -/
def clean_text (text : String) : String :=
  if pyStripList text.toList = [] then "unknown"
  else
    let cleaned := text.toList.filter (fun c => c.toNat ≤ 0x7F)
    let cleaned := pyStripList (collapseWs cleaned)
    let cleaned := cleaned.map Char.toLower
    let cleaned := TYPO_CORRECTIONS.foldl
      (fun cur tc =>
        if containsSub tc.1.toList cur then replaceAll tc.1.toList tc.2.toList cur
        else cur)
      cleaned
    String.mk cleaned

/-- C2: the claim asserts `clean(clean(x)) == clean(x)` for every input.
The code violates it: the typo entry `"coffe" -> "coffee"` is a substring of
its own replacement, so cleaning the already-clean `"coffee"` yields
`"coffeee"`.  Concretely `clean_text "coffe" = "coffee"` but a second
application gives `"coffeee"`. -/
theorem c2_clean_text_not_idempotent :
    clean_text "coffe" = "coffee" ∧
    clean_text (clean_text "coffe") = "coffeee" ∧
    clean_text (clean_text "coffe") ≠ clean_text "coffe" := by
  refine ⟨by decide, by decide, by decide⟩

/-! ## Baked-quantity extraction (`extract_baked_quantity`, `QTY_PATTERN`)

`QTY_PATTERN` is the regex `(.*?)(\d+)\s*(?:pc|pcs|piece|pieces|ct|count|pack)\b`
with `re.IGNORECASE`, used with `re.search`.  Its match is characterised
exactly: the lazy prefix makes the match start at the leftmost position at
which a (maximal) digit run, optional whitespace and a unit word with a word
boundary follow.  Backtracking inside the digit run or the whitespace can
never help (neither can start a unit word), and only groups 1 and 2 are
consumed by the caller, so the alternation order is irrelevant beyond the
existence of a unit alternative satisfying the boundary. -/

/-- The unit-of-count alternatives of `QTY_PATTERN`, in source order. -/
def unitWords : List (List Char) :=
  [ "pc".toList, "pcs".toList, "piece".toList, "pieces".toList,
    "ct".toList, "count".toList, "pack".toList ]

/-- Word character for the regex `\b` boundary (ASCII range). -/
def isWordChar (c : Char) : Bool :=
  c.isAlphanum || c = '_'

/-- Does some unit alternative match at the head of `cs` (case-insensitive)
followed by a word boundary? -/
def unitBoundary (cs : List Char) : Bool :=
  unitWords.any fun u =>
    listStartsWith u (cs.map Char.toLower) &&
      (match cs.drop u.length with
       | [] => true
       | d :: _ => !isWordChar d)

/-- Numeric value of an ASCII digit run (`int(match.group(2))`). -/
def natOfDigits (ds : List Char) : Nat :=
  ds.foldl (fun n c => n * 10 + (c.toNat - 48)) 0

/-- `QTY_PATTERN.search`: scan for the leftmost position where a digit run,
optional whitespace and a unit word with word boundary match; return the
text before the match (group 1) and the digit-run value (group 2).  The
lazy prefix `(.*?)` cannot cross a newline, so the match starts after the
last newline before the digits and group 1 reaches back only that far; the
accumulator holds the scanned prefix reversed, so that suffix is its
longest newline-free initial segment. -/
def qtySearch : List Char → List Char → Option (List Char × Nat)
  | _, [] => none
  | pre, c :: cs =>
    if c.isDigit then
      let ds := (c :: cs).takeWhile Char.isDigit
      let rest := (c :: cs).dropWhile Char.isDigit
      if unitBoundary (rest.dropWhile isPySpace) then
        some ((pre.takeWhile fun x => x ≠ '\n').reverse, natOfDigits ds)
      else qtySearch (c :: pre) cs
    else qtySearch (c :: pre) cs

/-- `extract_baked_quantity(raw_name, original_qty)`: on a `QTY_PATTERN`
match, `(clean_text(group1.strip()), original_qty * int(group2))`; on no
match, `(clean_text(raw_name), original_qty)`. -/
def extract_baked_quantity (raw_name : String) (original_qty : Int) :
    String × Int :=
  match qtySearch [] raw_name.toList with
  | some (pre, baked) =>
    (clean_text (String.mk (pyStripList pre)), original_qty * (baked : Int))
  | none => (clean_text raw_name, original_qty)

/-- Modelled from the spec: the claim describes the search as being for a
*trailing* pattern `<name><integer><unit-of-count-word>`, i.e. the integer
and unit word sit at the end of the raw name.  Same leftmost scan, but the
unit word must close the string. -/
def qtySearchTrailing : List Char → List Char → Option (List Char × Nat)
  | _, [] => none
  | pre, c :: cs =>
    if c.isDigit then
      let ds := (c :: cs).takeWhile Char.isDigit
      let rest := (c :: cs).dropWhile Char.isDigit
      if unitWords.any (fun u => (rest.dropWhile isPySpace).map Char.toLower = u) then
        some ((pre.takeWhile fun x => x ≠ '\n').reverse, natOfDigits ds)
      else qtySearchTrailing (c :: pre) cs
    else qtySearchTrailing (c :: pre) cs

/-- Modelled from the spec: `extract_baked_quantity` as the claim words it,
with the quantity pattern required to be trailing. -/
def extract_baked_quantity_trailingSpec (raw_name : String)
    (original_qty : Int) : String × Int :=
  match qtySearchTrailing [] raw_name.toList with
  | some (pre, baked) =>
    (clean_text (String.mk (pyStripList pre)), original_qty * (baked : Int))
  | none => (clean_text raw_name, original_qty)

/-- C6 counterexample: the claim says the function searches for a *trailing*
integer-plus-unit pattern.  The code searches for the leftmost occurrence
anywhere: on `"6pc wings"` the trailing reading finds no match and would
return `("6pc wings", 1)`, but the code matches the leading `"6pc"` and
returns `("unknown", 6)`. -/
theorem c6_trailing_counterexample :
    extract_baked_quantity "6pc wings" 1 = ("unknown", 6) ∧
    extract_baked_quantity_trailingSpec "6pc wings" 1 = ("6pc wings", 1) ∧
    extract_baked_quantity "6pc wings" 1 ≠
      extract_baked_quantity_trailingSpec "6pc wings" 1 := by
  refine ⟨by decide, by decide, by decide⟩

/-- C6 (amended): `extract_baked_quantity` searches for the *leftmost* (not
necessarily trailing) occurrence of an integer followed by an optional gap
and a unit-of-count word with a word boundary; on match it returns the
cleaned, stripped pre-match text and `original_qty * baked_integer`, on no
match the cleaned full name and the original quantity; in particular
`extract_baked_quantity "Churros 12pcs" 1 = ("churros", 12)` and
`extract_baked_quantity "Plain Burger" 2 = ("plain burger", 2)`. -/
theorem c6_extract_baked_quantity :
    extract_baked_quantity "Churros 12pcs" 1 = ("churros", 12) ∧
    extract_baked_quantity "Plain Burger" 2 = ("plain burger", 2) ∧
    (∀ raw q, qtySearch [] raw.toList = none →
      extract_baked_quantity raw q = (clean_text raw, q)) ∧
    (∀ raw q pre n, qtySearch [] raw.toList = some (pre, n) →
      extract_baked_quantity raw q =
        (clean_text (String.mk (pyStripList pre)), q * (n : Int))) := by
  refine ⟨by decide, by decide, ?_, ?_⟩
  · intro raw q h
    have h2 : qtySearch [] raw.data = none := h
    simp [extract_baked_quantity, h2]
  · intro raw q pre n h
    have h2 : qtySearch [] raw.data = some (pre, n) := h
    simp [extract_baked_quantity, h2]

/-- C6 witness: the amended theorem applied at the concrete no-match input
`"Plain Burger"`. -/
theorem c6_extract_baked_quantity_witness :
    qtySearch [] ("Plain Burger").toList = none ∧
    extract_baked_quantity "Plain Burger" 2 = (clean_text "Plain Burger", 2) :=
  ⟨by decide, c6_extract_baked_quantity.2.2.1 "Plain Burger" 2 (by decide)⟩

/-! ## Money conversion (`to_cents` in `process_data.py`)

Python dynamic values reaching `to_cents` are modelled by `PyVal`.  A float
is carried as the exact rational value of the IEEE double; the `value * 100`
of the float path is modelled as exact rational multiplication, which
coincides with the double computation whenever the product is exactly
representable — true at every concrete input used in the theorems below
(0.125 * 100 = 12.5 and 12.5 * 100 = 1250 are exact in binary64).
Python `round` rounds half to even. -/

inductive PyVal where
  | vnone
  | vnan
  | vint (n : Int)
  | vfloat (q : ℚ)
  | vstr (s : String)

/-- Python `round(x)` for a real value `x` given as a rational:
nearest integer, ties to even. -/
def pyRound (q : ℚ) : Int :=
  let f := q.floor
  let r := q - (f : ℚ)
  if r < 1 / 2 then f
  else if 1 / 2 < r then f + 1
  else if f % 2 = 0 then f else f + 1

/-- The regex substitution `re.sub(r'[^\d.-]', '', value)`: keep only
digits, the dot and the minus sign. -/
def stripToNumeric (s : String) : String :=
  String.mk (s.toList.filter fun c => c.isDigit || c = '.' || c = '-')

/-- Python `float(s)` for a string of digits, dots and minus signs (the only
characters surviving `stripToNumeric`): an optional leading minus, then a
non-empty digit/dot body with at most one dot and at least one digit. -/
def parsePyFloat (s : String) : Option ℚ :=
  let cs := s.toList
  let neg := cs.head? = some '-'
  let body := if neg then cs.tail else cs
  if body = [] then none
  else if body.any (fun c => !(c.isDigit || c = '.')) then none
  else if 1 < (body.filter (fun c => c = '.')).length then none
  else if body.all (fun c => c = '.') then none
  else
    let ip := body.takeWhile (fun c => c ≠ '.')
    let fp := (body.dropWhile (fun c => c ≠ '.')).drop 1
    let v : ℚ := (natOfDigits ip : ℚ) + (natOfDigits fp : ℚ) / (10 : ℚ) ^ fp.length
    some (if neg then -v else v)

/-- Python `int(s)` for a string of digits and minus signs: an optional
leading minus then a non-empty digit run. -/
def parsePyInt (s : String) : Option Int :=
  match s.toList with
  | '-' :: rest =>
    if rest ≠ [] && rest.all Char.isDigit then some (-(natOfDigits rest : Int))
    else none
  | cs =>
    if cs ≠ [] && cs.all Char.isDigit then some ((natOfDigits cs : Int))
    else none

/-- `to_cents(value)`: `None`/NaN give 0; ints pass through; floats are
scaled by 100 and passed to `round`; strings are stripped to digits, dot
and minus, then parsed as dollars (scale and round) when a dot remains,
else as an already-cents integer, with parse failures giving 0. -/
def to_cents : PyVal → Int
  | .vnone => 0
  | .vnan => 0
  | .vint n => n
  | .vfloat q => pyRound (q * 100)
  | .vstr s =>
    let clean_val := stripToNumeric s
    if clean_val = "" then 0
    else if clean_val.toList.contains '.' then
      match parsePyFloat clean_val with
      | some q => pyRound (q * 100)
      | none => 0
    else
      match parsePyInt clean_val with
      | some n => n
      | none => 0

/-- Modelled from the spec: the rounding rule the claim asserts,
half away from zero. -/
def roundHalfAwayFromZero (q : ℚ) : Int :=
  if 0 ≤ q then (q + 1 / 2).floor else -((-q + 1 / 2).floor)

/-- Round half to even, stated independently of `pyRound`: on an exact
half, choose the even neighbour, otherwise the nearest integer. -/
def roundHalfToEvenSpec (q : ℚ) : Int :=
  if q - (q.floor : ℚ) = 1 / 2 then
    if 2 ∣ q.floor then q.floor else q.floor + 1
  else (q + 1 / 2).floor

theorem rat_floor_eq_int_floor (q : ℚ) : q.floor = ⌊q⌋ := by
  rw [Rat.floor_def', Rat.floor_def]

theorem pyRound_eq_roundHalfToEvenSpec (q : ℚ) :
    pyRound q = roundHalfToEvenSpec q := by
  simp only [pyRound, roundHalfToEvenSpec, rat_floor_eq_int_floor]
  have h0 : (⌊q⌋ : ℚ) ≤ q := Int.floor_le q
  have h1 : q < ⌊q⌋ + 1 := Int.lt_floor_add_one q
  rcases lt_trichotomy (q - (⌊q⌋ : ℚ)) (1 / 2) with hlt | heq | hgt
  · have hne : q - (⌊q⌋ : ℚ) ≠ 1 / 2 := by
      intro hc
      rw [hc] at hlt
      norm_num at hlt
    rw [if_pos hlt, if_neg hne]
    have hfl : ⌊q + 1 / 2⌋ = ⌊q⌋ := by
      rw [Int.floor_eq_iff]
      constructor
      · linarith
      · linarith
    exact hfl.symm
  · have hlt1 : ¬ (q - (⌊q⌋ : ℚ) < 1 / 2) := by rw [heq]; norm_num
    have hlt2 : ¬ (1 / 2 < q - (⌊q⌋ : ℚ)) := by rw [heq]; norm_num
    rw [if_neg hlt1, if_neg hlt2, if_pos heq]
    by_cases hp : ⌊q⌋ % 2 = 0
    · rw [if_pos hp, if_pos (Int.dvd_of_emod_eq_zero hp)]
    · rw [if_neg hp, if_neg (fun hd => hp (Int.emod_eq_zero_of_dvd hd))]
  · have hne : q - (⌊q⌋ : ℚ) ≠ 1 / 2 := by
      intro hc
      rw [hc] at hgt
      norm_num at hgt
    rw [if_neg (by linarith), if_pos hgt, if_neg hne]
    have hfl : ⌊q + 1 / 2⌋ = ⌊q⌋ + 1 := by
      rw [Int.floor_eq_iff]
      constructor
      · push_cast
        linarith
      · push_cast
        linarith
    exact hfl.symm

theorem pyRound_half_eighth : pyRound ((1 / 8 : ℚ) * 100) = 12 := by
  have hq : (1 / 8 : ℚ) * 100 = 25 / 2 := by norm_num
  have hf : ((25 : ℚ) / 2).floor = 12 := by
    rw [rat_floor_eq_int_floor, Int.floor_eq_iff]
    constructor <;> norm_num
  rw [hq]
  simp only [pyRound, hf]
  norm_num

theorem away_half_eighth : roundHalfAwayFromZero ((1 / 8 : ℚ) * 100) = 13 := by
  have hq : (1 / 8 : ℚ) * 100 = 25 / 2 := by norm_num
  have hf : ((25 : ℚ) / 2 + 1 / 2).floor = 13 := by
    rw [rat_floor_eq_int_floor, Int.floor_eq_iff]
    constructor <;> norm_num
  rw [hq]
  simp only [roundHalfAwayFromZero, hf]
  norm_num

theorem pyRound_12999 : pyRound ((12999 / 1000 : ℚ) * 100) = 1300 := by
  have hq : (12999 / 1000 : ℚ) * 100 = 12999 / 10 := by norm_num
  have hf : ((12999 : ℚ) / 10).floor = 1299 := by
    rw [rat_floor_eq_int_floor, Int.floor_eq_iff]
    constructor <;> norm_num
  rw [hq]
  simp only [pyRound, hf]
  norm_num

theorem pyRound_1250 : pyRound ((25 / 2 : ℚ) * 100) = 1250 := by
  have hq : (25 / 2 : ℚ) * 100 = 1250 := by norm_num
  have hf : ((1250 : ℚ)).floor = 1250 := by
    rw [rat_floor_eq_int_floor, Int.floor_eq_iff]
    constructor <;> norm_num
  rw [hq]
  simp only [pyRound, hf]
  norm_num

theorem parse_12_50 : parsePyFloat "12.50" = some (25 / 2) := by
  have h : parsePyFloat "12.50" =
      some ((natOfDigits ['1', '2'] : ℚ) +
        (natOfDigits ['5', '0'] : ℚ) / (10 : ℚ) ^ (2 : ℕ)) := rfl
  rw [h, show natOfDigits ['1', '2'] = 12 from by decide,
    show natOfDigits ['5', '0'] = 50 from by decide]
  norm_num

theorem to_cents_str_12_50 : to_cents (.vstr "$12.50") = 1250 := by
  have hs : stripToNumeric "$12.50" = "12.50" := by decide
  simp only [to_cents, hs]
  rw [if_neg (by decide), if_pos (by decide), parse_12_50]
  exact pyRound_1250

/-- C3 counterexample: the claim says float inputs are rounded half away
from zero.  Python `round` rounds half to even: on the exactly representable
input 0.125 the code computes `round(12.5) = 12`, while half-away-from-zero
would give 13. -/
theorem c3_rounding_counterexample :
    to_cents (.vfloat (1 / 8)) = 12 ∧
    roundHalfAwayFromZero ((1 / 8 : ℚ) * 100) = 13 ∧
    (12 : Int) ≠ 13 :=
  ⟨pyRound_half_eighth, away_half_eighth, by decide⟩

/-- C3 (amended): `to_cents` returns integer inputs unchanged; float inputs
are scaled by 100 and rounded *half to even* (Python `round`), so
`to_cents 12.999 = 1300` but `to_cents 0.125 = 12`; string inputs keep only
digits, dot and minus, and are treated as dollars (scale, round half to
even) when a dot remains, else as already-cents, with unparseable remainders
giving 0; `None`/NaN give 0. -/
theorem c3_to_cents :
    (∀ n : Int, to_cents (.vint n) = n) ∧
    to_cents .vnone = 0 ∧
    to_cents .vnan = 0 ∧
    (∀ q : ℚ, to_cents (.vfloat q) = roundHalfToEvenSpec (q * 100)) ∧
    (∀ s : String, stripToNumeric s = "" → to_cents (.vstr s) = 0) ∧
    to_cents (.vstr "$12.50") = 1250 ∧
    to_cents (.vstr "1250") = 1250 ∧
    to_cents (.vstr "1.2.3") = 0 ∧
    to_cents (.vstr "--12") = 0 ∧
    to_cents (.vfloat (12999 / 1000)) = 1300 ∧
    to_cents (.vfloat (1 / 8)) = 12 := by
  refine ⟨fun n => rfl, rfl, rfl, fun q => pyRound_eq_roundHalfToEvenSpec _,
    ?_, to_cents_str_12_50, by decide, by decide, by decide,
    pyRound_12999, pyRound_half_eighth⟩
  intro s h
  simp [to_cents, h]

/-- C3 witness: the amended theorem applied at the unparseable concrete
input `"abc"` (stripped to the empty string). -/
theorem c3_to_cents_witness :
    stripToNumeric "abc" = "" ∧ to_cents (.vstr "abc") = 0 :=
  ⟨by decide, c3_to_cents.2.2.2.2.1 "abc" (by decide)⟩

/-! ## Data model: categories and order items

`ProductCategory` from `models.py` and the slice of `OrderItem` state that
the resolution and conflict passes read and write (`canonical_name` and
`category`; the other columns are never touched by those passes). -/

inductive Cat where
  | burgers
  | sandwiches
  | sides
  | appetizers
  | beverages
  | breakfast
  | entrees
  | salads
  | desserts
  | alcohol
  | unknown
deriving DecidableEq

/-- `ProductCategory.value`: the lowercase string value of the enum. -/
def catValue : Cat → String
  | .burgers => "burgers"
  | .sandwiches => "sandwiches"
  | .sides => "sides"
  | .appetizers => "appetizers"
  | .beverages => "beverages"
  | .breakfast => "breakfast"
  | .entrees => "entrees"
  | .salads => "salads"
  | .desserts => "desserts"
  | .alcohol => "alcohol"
  | .unknown => "unknown"

structure Item where
  canonical_name : String
  category : Cat
deriving DecidableEq

/-! ## Category conflict pass (`resolve_category_conflicts`) -/

/-- The per-item body of `resolve_category_conflicts`: if the lowercased
canonical name contains `"burger"` and the category value is not
`"burgers"`, set the category to BURGERS.  (The `except ValueError: pass`
around the enum assignment in the source can never fire: assigning an
existing enum member raises nothing.) -/
def burgerFix (it : Item) : Item :=
  if strContains (pyLower it.canonical_name) "burger" &&
      (catValue it.category != "burgers") then
    { it with category := Cat.burgers }
  else it

/-- `resolve_category_conflicts`: apply the burger fix to every order item. -/
def resolve_category_conflicts (items : List Item) : List Item :=
  items.map burgerFix

/-- C5: after the conflict pass every item whose canonical name contains
`"burger"` case-insensitively has category BURGERS, and every other item is
left entirely unchanged (in particular its category). -/
theorem c5_burger_conflict_pass :
    (∀ items : List Item, resolve_category_conflicts items = items.map burgerFix) ∧
    (∀ it : Item, strContains (pyLower it.canonical_name) "burger" = true →
      (burgerFix it).category = Cat.burgers) ∧
    (∀ it : Item, strContains (pyLower it.canonical_name) "burger" = false →
      burgerFix it = it) := by
  refine ⟨fun _ => rfl, ?_, ?_⟩
  · intro it h
    unfold burgerFix
    rw [h]
    by_cases hc : it.category = Cat.burgers
    · rcases it with ⟨n, c⟩
      cases hc
      simp [catValue]
    · have hv : (catValue it.category != "burgers") = true := by
        cases hcat : it.category <;> simp_all [catValue]
      simp [hv]
  · intro it h
    unfold burgerFix
    rw [h]
    simp

/-- C5 witness: the conflict pass applied to the concrete miscategorised
item `"double cheeseburger"` in ENTREES, and to `"caesar salad"` which it
must not touch. -/
theorem c5_burger_conflict_pass_witness :
    (burgerFix ⟨"double cheeseburger", Cat.entrees⟩).category = Cat.burgers ∧
    burgerFix ⟨"caesar salad", Cat.salads⟩ = ⟨"caesar salad", Cat.salads⟩ :=
  ⟨c5_burger_conflict_pass.2.1 ⟨"double cheeseburger", Cat.entrees⟩ (by decide),
   c5_burger_conflict_pass.2.2 ⟨"caesar salad", Cat.salads⟩ (by decide)⟩

/-! ## Location name fallback (`LOCATION_MAPPING`, `get_location_name`) -/

/-- Generic first-match association-list lookup (a Python dict lookup). -/
def findVal {α β : Type} [DecidableEq α] : List (α × β) → α → Option β
  | [], _ => none
  | (k, v) :: m, k2 => if k2 = k then some v else findVal m k2

/-- The hard-coded `LOCATION_MAPPING` of `models.py`, in source order. -/
def LOCATION_MAPPING : List (String × String) :=
  [ ("loc_downtown_001", "Downtown")
  , ("loc_airport_002", "Airport")
  , ("loc_mall_003", "Mall Location")
  , ("loc_univ_004", "University")
  , ("str_downtown_001", "Downtown")
  , ("str_airport_002", "Airport")
  , ("str_mall_003", "Mall Location")
  , ("str_university_004", "University")
  , ("LCN001DOWNTOWN", "Downtown")
  , ("LCN002AIRPORT", "Airport")
  , ("LCN003MALL", "Mall Location")
  , ("LCN004UNIV", "University")
  ]

/-- `get_location_name(location_id, source)`: direct lookup, then
substring pattern fallback on the lowercased id, then `"Downtown"`.
The `source` argument is accepted and unused, as in the source. -/
def get_location_name (location_id : String) (source : String) : String :=
  match findVal LOCATION_MAPPING location_id with
  | some v => v
  | none =>
    let location_lower := pyLower location_id
    if strContains location_lower "downtown" then "Downtown"
    else if strContains location_lower "airport" then "Airport"
    else if strContains location_lower "mall" then "Mall Location"
    else if strContains location_lower "univ" || strContains location_lower "university" then
      "University"
    else "Downtown"

/-- C10: an id absent from `LOCATION_MAPPING` whose lowercased form contains
none of the five patterns is silently resolved to `"Downtown"`. -/
theorem c10_unmapped_location_defaults_to_downtown
    (location_id source : String)
    (h0 : findVal LOCATION_MAPPING location_id = none)
    (h1 : strContains (pyLower location_id) "downtown" = false)
    (h2 : strContains (pyLower location_id) "airport" = false)
    (h3 : strContains (pyLower location_id) "mall" = false)
    (h4 : strContains (pyLower location_id) "univ" = false)
    (h5 : strContains (pyLower location_id) "university" = false) :
    get_location_name location_id source = "Downtown" := by
  unfold get_location_name
  rw [h0]
  simp [h1, h2, h3, h4, h5]

/-- C10 witness: the theorem at the concrete unknown id
`"mystery_loc_999"`. -/
theorem c10_unmapped_location_witness :
    get_location_name "mystery_loc_999" "Toast" = "Downtown" :=
  c10_unmapped_location_defaults_to_downtown "mystery_loc_999" "Toast"
    (by decide) (by decide) (by decide) (by decide) (by decide) (by decide)

/-! ## Category unifier (`build_category_mapping_from_catalogs` in `models.py`)

The Python function folds the set of catalog categories over a mapping
seeded with `BASE_CATEGORY_MAP`, deciding each label from the base table
alone (exact hit, then substring scan in base-table order, then keyword
buckets).  The set's iteration order is run-dependent in Python (string
hash randomisation), which is why the claim asks for order independence;
the embedding takes the iteration order as an explicit list argument and
quantifies over it. -/

/-- `CATEGORY_MAP` / `BASE_CATEGORY_MAP` of `models.py`, in source order
(the order matters for the first-match substring scan). -/
def BASE_CATEGORY_MAP : List (String × String) :=
  [ ("burgers", "burgers")
  , ("burger", "burgers")
  , ("sandwiches", "sandwiches")
  , ("sandwich", "sandwiches")
  , ("sides", "sides")
  , ("side", "sides")
  , ("sides & appetizers", "sides")
  , ("appetizers", "appetizers")
  , ("appetizer", "appetizers")
  , ("appitizers", "appetizers")
  , ("beverages", "beverages")
  , ("beverage", "beverages")
  , ("drinks", "beverages")
  , ("drink", "beverages")
  , ("coffee", "beverages")
  , ("breakfast", "breakfast")
  , ("entrees", "entrees")
  , ("entree", "entrees")
  , ("pasta", "entrees")
  , ("seafood", "entrees")
  , ("salads", "salads")
  , ("salad", "salads")
  , ("desserts", "desserts")
  , ("dessert", "desserts")
  , ("alcohol", "alcohol")
  , ("beer", "alcohol")
  , ("beer & wine", "alcohol")
  , ("wine", "alcohol")
  , ("cocktails", "alcohol")
  , ("wraps", "sandwiches")
  ]

/-- The substring pass: first base entry (in table order) whose key is
contained in the label or contains the label. -/
def substringScan : List (String × String) → String → Option String
  | [], _ => none
  | (bk, bv) :: rest, c =>
    if strContains c bk then some bv
    else if strContains bk c then some bv
    else substringScan rest c

/-- The keyword-heuristic buckets of `build_category_mapping_from_catalogs`,
applied to the lowercased label; `none` means the label stays unmapped. -/
def keywordBucket (category : String) : Option String :=
  let cl := pyLower category
  if ["steak", "meat", "entree", "entres", "chicken", "beef", "pork",
      "lamb"].any (fun k => strContains cl k) then some "entrees"
  else if ["drink", "beverage", "coffee", "juice",
      "soda"].any (fun k => strContains cl k) then some "beverages"
  else if ["beer", "wine", "cocktail", "alcohol",
      "spirit"].any (fun k => strContains cl k) then some "alcohol"
  else if ["side", "appetizer", "appitizer"].any (fun k => strContains cl k) then
    if strContains cl "appetizer" || strContains cl "appitizer" then
      some "appetizers"
    else some "sides"
  else none

/-- The loop body of `build_category_mapping_from_catalogs` for one catalog
label: skip labels already mapped, else add the base / substring / keyword
decision (appending preserves dict insertion order). -/
def mappingStep (m : List (String × String)) (category : String) :
    List (String × String) :=
  if (findVal m category).isSome then m
  else
    match findVal BASE_CATEGORY_MAP category with
    | some v => m ++ [(category, v)]
    | none =>
      match substringScan BASE_CATEGORY_MAP category with
      | some v => m ++ [(category, v)]
      | none =>
        match keywordBucket category with
        | some v => m ++ [(category, v)]
        | none => m

/-- `build_category_mapping_from_catalogs`: seed with the base table, then
process every catalog label.  `allCats` lists the union of the three
sources' category sets in the order Python's set iteration happens to
produce. -/
def build_category_mapping_from_catalogs
    (square toast doordash : List String) : List (String × String) :=
  (square ++ toast ++ doordash).foldl mappingStep BASE_CATEGORY_MAP

/-- The per-label decision, independent of everything but the label. -/
def catDecision (c : String) : Option String :=
  match findVal BASE_CATEGORY_MAP c with
  | some v => some v
  | none =>
    match substringScan BASE_CATEGORY_MAP c with
    | some v => some v
    | none => keywordBucket c

theorem findVal_append {α β : Type} [DecidableEq α]
    (m1 m2 : List (α × β)) (k : α) :
    findVal (m1 ++ m2) k =
      match findVal m1 k with
      | some v => some v
      | none => findVal m2 k := by
  induction m1 with
  | nil => rfl
  | cons p m1 ih =>
    rcases p with ⟨k1, v1⟩
    by_cases h : k = k1
    · simp [findVal, h]
    · simp [findVal, h, ih]

theorem findVal_single_ne {α β : Type} [DecidableEq α]
    (k c : α) (v : β) (h : k ≠ c) : findVal [(c, v)] k = none := by
  simp [findVal, h]

theorem findVal_append_single_ne {α β : Type} [DecidableEq α]
    (m : List (α × β)) (c k : α) (v : β) (h : k ≠ c) :
    findVal (m ++ [(c, v)]) k = findVal m k := by
  rw [findVal_append]
  cases hm : findVal m k <;> simp [findVal, h]

theorem mappingStep_lookup_self (m : List (String × String)) (c : String) :
    findVal (mappingStep m c) c =
      match findVal m c with
      | some v => some v
      | none => catDecision c := by
  unfold mappingStep catDecision
  cases hm : findVal m c with
  | some v => simp [hm]
  | none =>
    simp only [hm, Option.isSome_none, Bool.false_eq_true, if_false]
    cases hb : findVal BASE_CATEGORY_MAP c with
    | some v => simp [findVal_append, hm, findVal]
    | none =>
      cases hs : substringScan BASE_CATEGORY_MAP c with
      | some v => simp [findVal_append, hm, findVal]
      | none =>
        cases hk : keywordBucket c with
        | some v => simp [findVal_append, hm, findVal]
        | none => simp [hm]

theorem mappingStep_lookup_other (m : List (String × String)) (c k : String)
    (h : k ≠ c) : findVal (mappingStep m c) k = findVal m k := by
  unfold mappingStep
  cases hmc : findVal m c with
  | some v => simp [hmc]
  | none =>
    simp only [hmc, Option.isSome_none, Bool.false_eq_true, if_false]
    cases hb : findVal BASE_CATEGORY_MAP c with
    | some v => exact findVal_append_single_ne m c k v h
    | none =>
      cases hs : substringScan BASE_CATEGORY_MAP c with
      | some v => exact findVal_append_single_ne m c k v h
      | none =>
        cases hk2 : keywordBucket c with
        | some v => exact findVal_append_single_ne m c k v h
        | none => rfl

theorem build_fold_lookup (l : List String) (m : List (String × String))
    (k : String) :
    findVal (l.foldl mappingStep m) k =
      match findVal m k with
      | some v => some v
      | none => if k ∈ l then catDecision k else none := by
  induction l generalizing m with
  | nil =>
    cases hm : findVal m k <;> simp [hm]
  | cons c l ih =>
    rw [List.foldl_cons, ih]
    by_cases hk : k = c
    · subst hk
      rw [mappingStep_lookup_self]
      cases hm : findVal m k with
      | some v => rfl
      | none =>
        cases hd : catDecision k with
        | some v => simp [List.mem_cons]
        | none => by_cases hl : k ∈ l <;> simp [hl, List.mem_cons]
    · rw [mappingStep_lookup_other m c k hk]
      cases hm : findVal m k with
      | some v => rfl
      | none => simp [List.mem_cons, hk]

/-- C9: `build_category_mapping_from_catalogs` is deterministic — two runs
seeing the same *set* of raw labels (in whatever iteration order, with
whatever distribution across the three sources) produce the same mapping,
key by key. -/
theorem c9_build_category_mapping_deterministic
    (sq1 to1 dd1 sq2 to2 dd2 : List String)
    (h : ∀ c, c ∈ sq1 ++ to1 ++ dd1 ↔ c ∈ sq2 ++ to2 ++ dd2) (k : String) :
    findVal (build_category_mapping_from_catalogs sq1 to1 dd1) k =
      findVal (build_category_mapping_from_catalogs sq2 to2 dd2) k := by
  unfold build_category_mapping_from_catalogs
  rw [build_fold_lookup, build_fold_lookup]
  cases hb : findVal BASE_CATEGORY_MAP k with
  | some v => rfl
  | none =>
    show (if k ∈ sq1 ++ to1 ++ dd1 then catDecision k else none)
      = (if k ∈ sq2 ++ to2 ++ dd2 then catDecision k else none)
    by_cases hm : k ∈ sq1 ++ to1 ++ dd1
    · rw [if_pos hm, if_pos ((h k).mp hm)]
    · rw [if_neg hm, if_neg (fun hc => hm ((h k).mpr hc))]

/-- C9 witness: the same single label `"steaks"` reported once by the
Square catalog and once by the Toast catalog yields the same mapping. -/
theorem c9_build_category_mapping_witness :
    findVal (build_category_mapping_from_catalogs ["steaks"] [] []) "steaks" =
      findVal (build_category_mapping_from_catalogs [] ["steaks"] []) "steaks" :=
  c9_build_category_mapping_deterministic ["steaks"] [] [] [] ["steaks"] []
    (by intro c; simp) "steaks"

/-! ## Location registry (`ModelRegistry.get_or_create_location`)

`Location` fields touched by the registry, with `Option String` for the
nullable columns; Python truthiness of a field is `truthy` (set and
non-empty).  The registry's `locations` dict is an association list in
insertion order; `location_metadata` mirrors the same values field for
field and is omitted.  The source method first fetches or constructs the
location, then applies the update section; the embedding splits that
update section into `mergeIntoLocation` for reuse in proofs. -/

structure Loc where
  canonical_name : String
  toast_id : Option String
  doordash_id : Option String
  square_id : Option String
  address_line_1 : Option String
  city : Option String
  state : Option String
  zip_code : Option String
  country : String
  timezone : String
deriving DecidableEq

inductive Src where
  | toast
  | doordash
  | square
deriving DecidableEq

/-- Python truthiness for an optional string field. -/
def truthy : Option String → Bool
  | none => false
  | some s => s != ""

/-- The unconditional per-source id assignment of the update section. -/
def setSourceId (l : Loc) (src : Src) (source_id : String) : Loc :=
  match src with
  | .toast => { l with toast_id := some source_id }
  | .doordash => { l with doordash_id := some source_id }
  | .square => { l with square_id := some source_id }

/-- `if address_line_1 and not location.address_line_1:` fill step. -/
def fillAddr (address_line_1 : Option String) (l : Loc) : Loc :=
  if truthy address_line_1 && !truthy l.address_line_1 then
    { l with address_line_1 := address_line_1 }
  else l

/-- `if city and not location.city:` fill step. -/
def fillCity (city : Option String) (l : Loc) : Loc :=
  if truthy city && !truthy l.city then { l with city := city } else l

/-- `if state and not location.state:` fill step. -/
def fillState (state : Option String) (l : Loc) : Loc :=
  if truthy state && !truthy l.state then { l with state := state } else l

/-- `if zip_code and not location.zip_code:` fill step. -/
def fillZip (zip_code : Option String) (l : Loc) : Loc :=
  if truthy zip_code && !truthy l.zip_code then
    { l with zip_code := zip_code }
  else l

/-- The timezone step: replace only while the stored zone still holds the
default `'America/New_York'` and a different non-empty zone arrives. -/
def fillTz (timezone_str : String) (l : Loc) : Loc :=
  if (timezone_str != "") && (l.timezone == "America/New_York")
      && (timezone_str != "America/New_York") then
    { l with timezone := timezone_str }
  else l

/-- The update section of `get_or_create_location`, in source order:
per-source id, the four address fills, then the timezone step. -/
def mergeIntoLocation (location : Loc) (src : Src) (source_id : String)
    (timezone_str : String)
    (address_line_1 city state zip_code : Option String) : Loc :=
  fillTz timezone_str
    (fillZip zip_code
      (fillState state
        (fillCity city
          (fillAddr address_line_1 (setSourceId location src source_id)))))

/-- Python dict assignment `d[k] = v` on an insertion-ordered
association list. -/
def upsert {β : Type} (m : List (String × β)) (k : String) (v : β) :
    List (String × β) :=
  match m with
  | [] => [(k, v)]
  | (k1, v1) :: rest =>
    if k = k1 then (k, v) :: rest else (k1, v1) :: upsert rest k v

/-- `ModelRegistry.get_or_create_location`: fetch the location stored under
the canonical name, or construct a fresh one from the arguments, then run
the update section and store the result back.  Returns the updated
registry and the location. -/
def get_or_create_location (locations : List (String × Loc))
    (canonical_name : String) (src : Src) (source_id : String)
    (timezone_str : String)
    (address_line_1 city state zip_code : Option String)
    (country : String) : List (String × Loc) × Loc :=
  let location :=
    match findVal locations canonical_name with
    | some l => l
    | none =>
      ⟨canonical_name, none, none, none, address_line_1, city, state,
        zip_code, country, timezone_str⟩
  let location :=
    mergeIntoLocation location src source_id timezone_str address_line_1
      city state zip_code
  (upsert locations canonical_name location, location)

theorem upsert_keys {β : Type} (m : List (String × β)) (name : String)
    (v w : β) (h : findVal m name = some w) (k : String) :
    (findVal (upsert m name v) k).isSome = (findVal m k).isSome := by
  induction m with
  | nil => simp [findVal] at h
  | cons p rest ih =>
    rcases p with ⟨k1, v1⟩
    by_cases h1 : name = k1
    · subst h1
      by_cases h2 : k = name <;> simp [upsert, findVal, h2]
    · rw [findVal] at h
      rw [if_neg h1] at h
      by_cases h2 : k = k1 <;>
        simp [upsert, findVal, h1, h2, ih h]

theorem upsert_findVal_self {β : Type} (m : List (String × β))
    (name : String) (v : β) :
    findVal (upsert m name v) name = some v := by
  induction m with
  | nil => simp [upsert, findVal]
  | cons p rest ih =>
    rcases p with ⟨k1, v1⟩
    by_cases h1 : name = k1 <;> simp [upsert, findVal, h1, ih]

theorem setSourceId_fields (l : Loc) (src : Src) (sid : String) :
    (setSourceId l src sid).address_line_1 = l.address_line_1 ∧
    (setSourceId l src sid).city = l.city ∧
    (setSourceId l src sid).state = l.state ∧
    (setSourceId l src sid).zip_code = l.zip_code ∧
    (setSourceId l src sid).timezone = l.timezone := by
  cases src <;> exact ⟨rfl, rfl, rfl, rfl, rfl⟩

theorem fillAddr_fields (a : Option String) (l : Loc) :
    (fillAddr a l).city = l.city ∧ (fillAddr a l).state = l.state ∧
    (fillAddr a l).zip_code = l.zip_code ∧
    (fillAddr a l).timezone = l.timezone := by
  unfold fillAddr
  split <;> exact ⟨rfl, rfl, rfl, rfl⟩

theorem fillCity_fields (c : Option String) (l : Loc) :
    (fillCity c l).address_line_1 = l.address_line_1 ∧
    (fillCity c l).state = l.state ∧ (fillCity c l).zip_code = l.zip_code ∧
    (fillCity c l).timezone = l.timezone := by
  unfold fillCity
  split <;> exact ⟨rfl, rfl, rfl, rfl⟩

theorem fillState_fields (st : Option String) (l : Loc) :
    (fillState st l).address_line_1 = l.address_line_1 ∧
    (fillState st l).city = l.city ∧ (fillState st l).zip_code = l.zip_code ∧
    (fillState st l).timezone = l.timezone := by
  unfold fillState
  split <;> exact ⟨rfl, rfl, rfl, rfl⟩

theorem fillZip_fields (z : Option String) (l : Loc) :
    (fillZip z l).address_line_1 = l.address_line_1 ∧
    (fillZip z l).city = l.city ∧ (fillZip z l).state = l.state ∧
    (fillZip z l).timezone = l.timezone := by
  unfold fillZip
  split <;> exact ⟨rfl, rfl, rfl, rfl⟩

theorem fillTz_fields (tz : String) (l : Loc) :
    (fillTz tz l).address_line_1 = l.address_line_1 ∧
    (fillTz tz l).city = l.city ∧ (fillTz tz l).state = l.state ∧
    (fillTz tz l).zip_code = l.zip_code := by
  unfold fillTz
  split <;> exact ⟨rfl, rfl, rfl, rfl⟩

theorem fillAddr_keep (a : Option String) (l : Loc)
    (h : truthy l.address_line_1 = true) : fillAddr a l = l := by
  unfold fillAddr
  rw [h]
  simp

theorem fillAddr_fill (a : Option String) (l : Loc) (ha : truthy a = true)
    (h : truthy l.address_line_1 = false) :
    (fillAddr a l).address_line_1 = a := by
  unfold fillAddr
  rw [h, ha]
  simp

theorem fillCity_keep (c : Option String) (l : Loc)
    (h : truthy l.city = true) : fillCity c l = l := by
  unfold fillCity
  rw [h]
  simp

theorem fillCity_fill (c : Option String) (l : Loc) (hc : truthy c = true)
    (h : truthy l.city = false) : (fillCity c l).city = c := by
  unfold fillCity
  rw [h, hc]
  simp

theorem fillState_keep (st : Option String) (l : Loc)
    (h : truthy l.state = true) : fillState st l = l := by
  unfold fillState
  rw [h]
  simp

theorem fillZip_keep (z : Option String) (l : Loc)
    (h : truthy l.zip_code = true) : fillZip z l = l := by
  unfold fillZip
  rw [h]
  simp

theorem fillTz_keep (tz : String) (l : Loc)
    (h : l.timezone ≠ "America/New_York") : fillTz tz l = l := by
  unfold fillTz
  have hb : (l.timezone == "America/New_York") = false := by
    simp [h]
  rw [hb]
  simp

theorem merge_keeps_truthy_address (l : Loc) (src : Src)
    (sid tz : String) (a c st z : Option String)
    (h : truthy l.address_line_1 = true) :
    (mergeIntoLocation l src sid tz a c st z).address_line_1 =
      l.address_line_1 := by
  unfold mergeIntoLocation
  rw [(fillTz_fields _ _).1, (fillZip_fields _ _).1, (fillState_fields _ _).1,
    (fillCity_fields _ _).1,
    fillAddr_keep _ _ (by rw [(setSourceId_fields l src sid).1]; exact h),
    (setSourceId_fields l src sid).1]

theorem merge_keeps_truthy_city (l : Loc) (src : Src)
    (sid tz : String) (a c st z : Option String)
    (h : truthy l.city = true) :
    (mergeIntoLocation l src sid tz a c st z).city = l.city := by
  unfold mergeIntoLocation
  rw [(fillTz_fields _ _).2.1, (fillZip_fields _ _).2.1,
    (fillState_fields _ _).2.1,
    fillCity_keep _ _ (by
      rw [(fillAddr_fields _ _).1, (setSourceId_fields l src sid).2.1]
      exact h),
    (fillAddr_fields _ _).1, (setSourceId_fields l src sid).2.1]

theorem merge_keeps_truthy_state (l : Loc) (src : Src)
    (sid tz : String) (a c st z : Option String)
    (h : truthy l.state = true) :
    (mergeIntoLocation l src sid tz a c st z).state = l.state := by
  unfold mergeIntoLocation
  rw [(fillTz_fields _ _).2.2.1, (fillZip_fields _ _).2.2.1,
    fillState_keep _ _ (by
      rw [(fillCity_fields _ _).2.1, (fillAddr_fields _ _).2.1,
        (setSourceId_fields l src sid).2.2.1]
      exact h),
    (fillCity_fields _ _).2.1, (fillAddr_fields _ _).2.1,
    (setSourceId_fields l src sid).2.2.1]

theorem merge_keeps_truthy_zip (l : Loc) (src : Src)
    (sid tz : String) (a c st z : Option String)
    (h : truthy l.zip_code = true) :
    (mergeIntoLocation l src sid tz a c st z).zip_code = l.zip_code := by
  unfold mergeIntoLocation
  rw [(fillTz_fields _ _).2.2.2,
    fillZip_keep _ _ (by
      rw [(fillState_fields _ _).2.2.1, (fillCity_fields _ _).2.2.1,
        (fillAddr_fields _ _).2.2.1, (setSourceId_fields l src sid).2.2.2.1]
      exact h),
    (fillState_fields _ _).2.2.1, (fillCity_fields _ _).2.2.1,
    (fillAddr_fields _ _).2.2.1, (setSourceId_fields l src sid).2.2.2.1]

theorem merge_keeps_nondefault_timezone (l : Loc) (src : Src)
    (sid tz : String) (a c st z : Option String)
    (h : l.timezone ≠ "America/New_York") :
    (mergeIntoLocation l src sid tz a c st z).timezone = l.timezone := by
  unfold mergeIntoLocation
  rw [fillTz_keep _ _ (by
      rw [(fillZip_fields _ _).2.2.2, (fillState_fields _ _).2.2.2,
        (fillCity_fields _ _).2.2.2, (fillAddr_fields _ _).2.2.2,
        (setSourceId_fields l src sid).2.2.2.2]
      exact h),
    (fillZip_fields _ _).2.2.2, (fillState_fields _ _).2.2.2,
    (fillCity_fields _ _).2.2.2, (fillAddr_fields _ _).2.2.2,
    (setSourceId_fields l src sid).2.2.2.2]

theorem merge_fills_unset_address (l : Loc) (src : Src)
    (sid tz : String) (a c st z : Option String)
    (ha : truthy a = true) (h : truthy l.address_line_1 = false) :
    (mergeIntoLocation l src sid tz a c st z).address_line_1 = a := by
  unfold mergeIntoLocation
  rw [(fillTz_fields _ _).1, (fillZip_fields _ _).1, (fillState_fields _ _).1,
    (fillCity_fields _ _).1,
    fillAddr_fill _ _ ha (by rw [(setSourceId_fields l src sid).1]; exact h)]

theorem merge_fills_unset_city (l : Loc) (src : Src)
    (sid tz : String) (a c st z : Option String)
    (hc : truthy c = true) (h : truthy l.city = false) :
    (mergeIntoLocation l src sid tz a c st z).city = c := by
  unfold mergeIntoLocation
  rw [(fillTz_fields _ _).2.1, (fillZip_fields _ _).2.1,
    (fillState_fields _ _).2.1,
    fillCity_fill _ _ hc (by
      rw [(fillAddr_fields _ _).1, (setSourceId_fields l src sid).2.1]
      exact h)]

/-- C7 counterexample: the claim says a timezone already set by an earlier
writer is never overwritten.  The code treats the default zone
`'America/New_York'` as unset: a first writer that explicitly reports
`'America/New_York'` is overwritten by a later writer reporting
`'America/Chicago'`. -/
theorem c7_timezone_overwrite_counterexample :
    ((get_or_create_location [] "Downtown" .toast "t1" "America/New_York"
        none none none none "US").2).timezone = "America/New_York" ∧
    ((get_or_create_location
        (get_or_create_location [] "Downtown" .toast "t1" "America/New_York"
          none none none none "US").1
        "Downtown" .square "sq1" "America/Chicago"
        none none none none "US").2).timezone = "America/Chicago" ∧
    ("America/Chicago" : String) ≠ "America/New_York" := by
  refine ⟨by decide, by decide, by decide⟩

/-- C7 (amended): when the canonical name is already registered, no new
location is created (the registry's key set is unchanged and the stored
entry is the merged one); address fields that are already truthy are never
overwritten and truthy arguments fill only still-unset fields; the
timezone is preserved whenever it differs from the default
`'America/New_York'` (a stored timezone equal to the default counts as
unset and can still be replaced, as the counterexample shows). -/
theorem c7_first_writer_wins
    (locations : List (String × Loc)) (name : String) (src : Src)
    (sid tz : String) (a c st z : Option String) (co : String) (l : Loc)
    (h : findVal locations name = some l) :
    (∀ k, (findVal (get_or_create_location locations name src sid tz
        a c st z co).1 k).isSome = (findVal locations k).isSome) ∧
    findVal (get_or_create_location locations name src sid tz a c st z co).1
        name =
      some (get_or_create_location locations name src sid tz a c st z co).2 ∧
    (truthy l.address_line_1 = true →
      (get_or_create_location locations name src sid tz a c st z
          co).2.address_line_1 = l.address_line_1) ∧
    (truthy l.city = true →
      (get_or_create_location locations name src sid tz a c st z co).2.city =
        l.city) ∧
    (truthy l.state = true →
      (get_or_create_location locations name src sid tz a c st z co).2.state =
        l.state) ∧
    (truthy l.zip_code = true →
      (get_or_create_location locations name src sid tz a c st z
          co).2.zip_code = l.zip_code) ∧
    (l.timezone ≠ "America/New_York" →
      (get_or_create_location locations name src sid tz a c st z
          co).2.timezone = l.timezone) ∧
    (truthy a = true → truthy l.address_line_1 = false →
      (get_or_create_location locations name src sid tz a c st z
          co).2.address_line_1 = a) ∧
    (truthy c = true → truthy l.city = false →
      (get_or_create_location locations name src sid tz a c st z co).2.city =
        c) := by
  have hloc :
      (get_or_create_location locations name src sid tz a c st z co).2 =
        mergeIntoLocation l src sid tz a c st z := by
    unfold get_or_create_location
    rw [h]
  have hreg :
      (get_or_create_location locations name src sid tz a c st z co).1 =
        upsert locations name
          (mergeIntoLocation l src sid tz a c st z) := by
    unfold get_or_create_location
    rw [h]
  refine ⟨?_, ?_, ?_, ?_, ?_, ?_, ?_, ?_, ?_⟩
  · intro k
    rw [hreg]
    exact upsert_keys locations name _ l h k
  · rw [hreg, hloc]
    exact upsert_findVal_self locations name _
  · intro ht
    rw [hloc]
    exact merge_keeps_truthy_address l src sid tz a c st z ht
  · intro ht
    rw [hloc]
    exact merge_keeps_truthy_city l src sid tz a c st z ht
  · intro ht
    rw [hloc]
    exact merge_keeps_truthy_state l src sid tz a c st z ht
  · intro ht
    rw [hloc]
    exact merge_keeps_truthy_zip l src sid tz a c st z ht
  · intro ht
    rw [hloc]
    exact merge_keeps_nondefault_timezone l src sid tz a c st z ht
  · intro ha hf
    rw [hloc]
    exact merge_fills_unset_address l src sid tz a c st z ha hf
  · intro hc hf
    rw [hloc]
    exact merge_fills_unset_city l src sid tz a c st z hc hf

/-- C7 witness: a Toast writer registers Downtown with an address and a
Denver timezone; a later Square writer with a different address cannot
overwrite either, but does fill the still-unset city. -/
theorem c7_first_writer_wins_witness :
    (findVal
      (get_or_create_location
        [("Downtown",
          ⟨"Downtown", some "t1", none, none, some "1 Main St", none, none,
            none, "US", "America/Denver"⟩)]
        "Downtown" .square "sq1" "America/Chicago" (some "9 Elm Ave")
        (some "Springfield") none none "US").1 "Downtown").isSome =
      (findVal
        [("Downtown",
          (⟨"Downtown", some "t1", none, none, some "1 Main St", none, none,
            none, "US", "America/Denver"⟩ : Loc))] "Downtown").isSome ∧
    (get_or_create_location
      [("Downtown",
        ⟨"Downtown", some "t1", none, none, some "1 Main St", none, none,
          none, "US", "America/Denver"⟩)]
      "Downtown" .square "sq1" "America/Chicago" (some "9 Elm Ave")
      (some "Springfield") none none "US").2.address_line_1 =
        some "1 Main St" ∧
    (get_or_create_location
      [("Downtown",
        ⟨"Downtown", some "t1", none, none, some "1 Main St", none, none,
          none, "US", "America/Denver"⟩)]
      "Downtown" .square "sq1" "America/Chicago" (some "9 Elm Ave")
      (some "Springfield") none none "US").2.timezone = "America/Denver" ∧
    (get_or_create_location
      [("Downtown",
        ⟨"Downtown", some "t1", none, none, some "1 Main St", none, none,
          none, "US", "America/Denver"⟩)]
      "Downtown" .square "sq1" "America/Chicago" (some "9 Elm Ave")
      (some "Springfield") none none "US").2.city = some "Springfield" := by
  have H := c7_first_writer_wins
    [("Downtown",
      ⟨"Downtown", some "t1", none, none, some "1 Main St", none, none,
        none, "US", "America/Denver"⟩)]
    "Downtown" Src.square "sq1" "America/Chicago" (some "9 Elm Ave")
    (some "Springfield") none none "US"
    ⟨"Downtown", some "t1", none, none, some "1 Main St", none, none,
      none, "US", "America/Denver"⟩
    (by decide)
  exact ⟨H.1 "Downtown", H.2.2.1 (by decide),
    H.2.2.2.2.2.2.1 (by decide), H.2.2.2.2.2.2.2.2 (by decide) (by decide)⟩

/-! ## Entity resolution (`perform_entity_resolution_on_models`)

The pass groups order items by `(canonical_name, category.value)`, counts
group sizes, sorts descending by count and walks the groups, fuzzy-merging
unclaimed same-category groups into the current anchor when the similarity
score strictly exceeds 88.

pandas details embedded here: `groupby(['canonical_name','category'])`
sorts the group keys ascending lexicographically (name first, then
category, by code points); `sort_values('count', ascending=False)` is
modelled as a *stable* descending insertion sort (numpy uses a stable
insertion sort for the small arrays exercised here; for large inputs its
introsort leaves the tie order unspecified).

The similarity function `fuzz.token_sort_ratio` lives in the third-party
`thefuzz` library; it is taken as an opaque parameter `score`, so every
theorem below holds for the real scorer in particular. -/

/-- Group key: `(canonical_name, category.value)`. -/
abbrev RKey := String × String

/-- Strict lexicographic order on character lists, by code point. -/
def lexLt : List Char → List Char → Bool
  | [], [] => false
  | [], _ :: _ => true
  | _ :: _, [] => false
  | a :: as, b :: bs =>
    if a.toNat < b.toNat then true
    else if b.toNat < a.toNat then false
    else lexLt as bs

/-- Python string `<`. -/
def strLtB (s t : String) : Bool :=
  lexLt s.toList t.toList

/-- Python tuple `<` on group keys (the pandas MultiIndex sort order). -/
def keyLtB (a b : RKey) : Bool :=
  strLtB a.1 b.1 || (a.1 == b.1 && strLtB a.2 b.2)

/-- One row of the `product_counts` frame. -/
structure PC where
  name : String
  cat : String
  count : Nat
deriving DecidableEq

/-- The group key of a row. -/
def keyOf (r : PC) : RKey :=
  (r.name, r.cat)

/-- Insert one observed key into the key-sorted counts list: bump the
matching row or insert a fresh row at its sorted position (the result of
`groupby(...).size()` is reached by folding all observations). -/
def addKey (k : RKey) : List PC → List PC
  | [] => [⟨k.1, k.2, 1⟩]
  | r :: rs =>
    if keyOf r = k then { r with count := r.count + 1 } :: rs
    else if keyLtB (keyOf r) k then r :: addKey k rs
    else ⟨k.1, k.2, 1⟩ :: r :: rs

/-- `groupby(['canonical_name','category']).size()`: per-key counts, keys
ascending lexicographically. -/
def groupCounts (pairs : List RKey) : List PC :=
  pairs.foldl (fun acc k => addKey k acc) []

/-- Stable descending insertion by count (`sort_values('count',
ascending=False)`): the new row goes after every row with a count at least
as large. -/
def insertDesc (r : PC) : List PC → List PC
  | [] => [r]
  | x :: xs => if r.count ≤ x.count then x :: insertDesc r xs else r :: x :: xs

/-- Stable descending sort by count. -/
def sortByCountDesc (rows : List PC) : List PC :=
  rows.foldl (fun acc r => insertDesc r acc) []

/-- The sorted `product_counts` rows that the resolution loop walks, for a
given list of order items. -/
def resolutionRows (items : List Item) : List PC :=
  sortByCountDesc
    (groupCounts (items.map fun it => (it.canonical_name, catValue it.category)))

/-- The mutable state of the resolution loop: `canonical_map` and
`processed`. -/
structure RState where
  cmap : List (RKey × String)
  processed : List RKey

/-- The inner loop body: skip claimed groups, else claim the candidate for
the anchor when the similarity score strictly exceeds 88. -/
def innerStep (score : String → String → Nat) (anchor : String)
    (st : RState) (r : PC) : RState :=
  if keyOf r ∈ st.processed then st
  else if 88 < score anchor r.name then
    ⟨(keyOf r, anchor) :: st.cmap, keyOf r :: st.processed⟩
  else st

/-- The outer loop body: an unclaimed group becomes an anchor mapping to
its own name, then the inner loop runs over the same-category rows of the
full sorted frame. -/
def outerStep (score : String → String → Nat) (rows : List PC)
    (st : RState) (r : PC) : RState :=
  if keyOf r ∈ st.processed then st
  else
    let st1 : RState := ⟨(keyOf r, r.name) :: st.cmap, keyOf r :: st.processed⟩
    (rows.filter fun x => x.cat == r.cat).foldl (innerStep score r.name) st1

/-- The `canonical_map` produced by walking `rows`. -/
def resolutionMap (score : String → String → Nat) (rows : List PC) :
    List (RKey × String) :=
  (rows.foldl (outerStep score rows) ⟨[], []⟩).cmap

/-- `perform_entity_resolution_on_models`: build the map from the sorted
group rows, then rewrite each item's `canonical_name` in place when its
key is mapped to a different anchor name. -/
def perform_entity_resolution_on_models (score : String → String → Nat)
    (items : List Item) : List Item :=
  let rows := resolutionRows items
  let cmap := resolutionMap score rows
  items.map fun it =>
    match findVal cmap (it.canonical_name, catValue it.category) with
    | some new_name =>
      if new_name ≠ it.canonical_name then
        { it with canonical_name := new_name }
      else it
    | none => it

/-- The merge-soundness invariant of `canonical_map`: every binding either
maps a key to its own name (an anchor) or records a merge into an anchor of
the same category with a score strictly above 88. -/
def MapOk (score : String → String → Nat) (m : List (RKey × String)) : Prop :=
  ∀ n c a, findVal m (n, c) = some a →
    a = n ∨ (88 < score a n ∧ findVal m (a, c) = some a)

/-- In the source, `processed` and the key set of `canonical_map` grow in
lockstep; the loops rely on that equality and so do the proofs. -/
def KeysOk (st : RState) : Prop :=
  ∀ k, k ∈ st.processed ↔ (findVal st.cmap k).isSome = true

theorem findVal_cons_self {β : Type} (m : List (RKey × β)) (k : RKey)
    (v : β) : findVal ((k, v) :: m) k = some v := by
  simp [findVal]

theorem findVal_cons_ne {β : Type} (m : List (RKey × β)) (k k2 : RKey)
    (v : β) (h : k2 ≠ k) : findVal ((k, v) :: m) k2 = findVal m k2 := by
  simp [findVal, h]

theorem mapOk_insert_anchor (score : String → String → Nat)
    (m : List (RKey × String)) (k : RKey)
    (hm : MapOk score m) (hk : findVal m k = none) :
    MapOk score ((k, k.1) :: m) := by
  intro n c a h
  by_cases he : (n, c) = k
  · rw [he, findVal_cons_self] at h
    cases h
    left
    have : k.1 = n := by rw [← he]
    exact this
  · rw [findVal_cons_ne m k (n, c) k.1 he] at h
    rcases hm n c a h with rfl | ⟨hs, hl⟩
    · exact Or.inl rfl
    · right
      refine ⟨hs, ?_⟩
      by_cases hac : (a, c) = k
      · rw [hac] at hl
        rw [hl] at hk
        cases hk
      · rw [findVal_cons_ne m k (a, c) k.1 hac]
        exact hl

theorem mapOk_insert_merge (score : String → String → Nat)
    (m : List (RKey × String)) (k2 : RKey) (anchor : String)
    (hm : MapOk score m) (hk : findVal m k2 = none)
    (hs : 88 < score anchor k2.1)
    (ha : findVal m (anchor, k2.2) = some anchor) :
    MapOk score ((k2, anchor) :: m) := by
  intro n c a h
  by_cases he : (n, c) = k2
  · rw [he, findVal_cons_self] at h
    cases h
    right
    have h1 : k2.1 = n := by rw [← he]
    have h2 : k2.2 = c := by rw [← he]
    refine ⟨h1 ▸ hs, ?_⟩
    by_cases hac : (anchor, c) = k2
    · rw [hac, findVal_cons_self]
    · rw [findVal_cons_ne m k2 (anchor, c) anchor hac, ← h2]
      exact ha
  · rw [findVal_cons_ne m k2 (n, c) anchor he] at h
    rcases hm n c a h with rfl | ⟨hs2, hl⟩
    · exact Or.inl rfl
    · right
      refine ⟨hs2, ?_⟩
      by_cases hac : (a, c) = k2
      · rw [hac] at hl
        rw [hl] at hk
        cases hk
      · rw [findVal_cons_ne m k2 (a, c) anchor hac]
        exact hl

theorem keysOk_insert (st : RState) (k : RKey) (v : String)
    (hst : KeysOk st) : KeysOk ⟨(k, v) :: st.cmap, k :: st.processed⟩ := by
  intro q
  by_cases hq : q = k
  · subst hq
    simp [findVal_cons_self]
  · simp only [List.mem_cons, hq, false_or]
    rw [findVal_cons_ne st.cmap k q v hq]
    exact hst q

theorem unclaimed_not_bound (st : RState) (hst : KeysOk st) (k : RKey)
    (h : ¬ k ∈ st.processed) : findVal st.cmap k = none := by
  cases hv : findVal st.cmap k with
  | none => rfl
  | some v =>
    exact absurd ((hst k).mpr (by rw [hv]; rfl)) h

theorem innerFold_ok (score : String → String → Nat) (anchor cat : String)
    (rs : List PC) (hcat : ∀ r ∈ rs, r.cat = cat) (st : RState)
    (hstm : MapOk score st.cmap) (hstk : KeysOk st)
    (hanc : findVal st.cmap (anchor, cat) = some anchor) :
    MapOk score (rs.foldl (innerStep score anchor) st).cmap ∧
    KeysOk (rs.foldl (innerStep score anchor) st) ∧
    findVal (rs.foldl (innerStep score anchor) st).cmap (anchor, cat) =
      some anchor := by
  induction rs generalizing st with
  | nil => exact ⟨hstm, hstk, hanc⟩
  | cons r rs ih =>
    rw [List.foldl_cons]
    have hrcat : r.cat = cat := hcat r (List.mem_cons_self r rs)
    have hcat2 : ∀ x ∈ rs, x.cat = cat := fun x hx =>
      hcat x (List.mem_cons_of_mem r hx)
    by_cases hp : keyOf r ∈ st.processed
    · rw [innerStep, if_pos hp]
      exact ih hcat2 st hstm hstk hanc
    · have hnone : findVal st.cmap (keyOf r) = none :=
        unclaimed_not_bound st hstk (keyOf r) hp
      by_cases hsc : 88 < score anchor r.name
      · rw [innerStep, if_neg hp, if_pos hsc]
        have hne : (anchor, cat) ≠ keyOf r := by
          intro hc
          rw [← hc] at hnone
          rw [hnone] at hanc
          cases hanc
        refine ih hcat2 _ ?_ ?_ ?_
        · exact mapOk_insert_merge score st.cmap (keyOf r) anchor hstm hnone
            (by rw [keyOf]; exact hsc)
            (by rw [keyOf]; rw [hrcat]; exact hanc)
        · exact keysOk_insert st (keyOf r) anchor hstk
        · rw [findVal_cons_ne st.cmap (keyOf r) (anchor, cat) anchor hne]
          exact hanc
      · rw [innerStep, if_neg hp, if_neg hsc]
        exact ih hcat2 st hstm hstk hanc

theorem outerFold_ok (score : String → String → Nat) (rows rs : List PC)
    (st : RState) (hstm : MapOk score st.cmap) (hstk : KeysOk st) :
    MapOk score (rs.foldl (outerStep score rows) st).cmap ∧
    KeysOk (rs.foldl (outerStep score rows) st) := by
  induction rs generalizing st with
  | nil => exact ⟨hstm, hstk⟩
  | cons r rs ih =>
    rw [List.foldl_cons]
    by_cases hp : keyOf r ∈ st.processed
    · rw [outerStep, if_pos hp]
      exact ih st hstm hstk
    · have hnone : findVal st.cmap (keyOf r) = none :=
        unclaimed_not_bound st hstk (keyOf r) hp
      rw [outerStep, if_neg hp]
      have hm1 : MapOk score ((keyOf r, r.name) :: st.cmap) := by
        have := mapOk_insert_anchor score st.cmap (keyOf r) hstm hnone
        rw [keyOf] at this
        rw [keyOf]
        exact this
      have hk1 : KeysOk ⟨(keyOf r, r.name) :: st.cmap, keyOf r :: st.processed⟩ := by
        have := keysOk_insert st (keyOf r) r.name hstk
        exact this
      have hanc1 : findVal ((keyOf r, r.name) :: st.cmap) (r.name, r.cat) =
          some r.name := by
        rw [show (r.name, r.cat) = keyOf r from rfl]
        exact findVal_cons_self st.cmap (keyOf r) r.name
      have hcatf : ∀ x ∈ rows.filter (fun x => x.cat == r.cat), x.cat = r.cat := by
        intro x hx
        have := List.of_mem_filter hx
        exact eq_of_beq this
      have hinner := innerFold_ok score r.name r.cat
        (rows.filter fun x => x.cat == r.cat) hcatf
        ⟨(keyOf r, r.name) :: st.cmap, keyOf r :: st.processed⟩
        hm1 hk1 hanc1
      exact ih _ hinner.1 hinner.2.1

theorem resolutionMap_mapOk (score : String → String → Nat)
    (rows : List PC) : MapOk score (resolutionMap score rows) := by
  have h0m : MapOk score ([] : List (RKey × String)) := by
    intro n c a h
    cases h
  have h0k : KeysOk ⟨[], []⟩ := by
    intro k
    simp [findVal]
  exact (outerFold_ok score rows rows ⟨[], []⟩ h0m h0k).1

/-- C1: in the resolution pass a group is mapped to an anchor name other
than its own only when the similarity score between the anchor and the
candidate strictly exceeds 88 and the anchor is a group of the same
category (so no merge crosses categories); and at the threshold boundary,
on a frame of two same-category groups a score of exactly 88 leaves the
candidate mapped to itself while 89 merges it into the anchor.  Stated for
every scorer, hence for `fuzz.token_sort_ratio` in particular. -/
theorem c1_resolution_merge_threshold_and_category :
    (∀ (score : String → String → Nat) (rows : List PC) (n c a : String),
      findVal (resolutionMap score rows) (n, c) = some a → a ≠ n →
      88 < score a n ∧ findVal (resolutionMap score rows) (a, c) = some a) ∧
    (∀ score : String → String → Nat,
      score "hash browns" "hashbrowns" = 88 →
      findVal (resolutionMap score
          [⟨"hash browns", "sides", 2⟩, ⟨"hashbrowns", "sides", 1⟩])
        ("hashbrowns", "sides") = some "hashbrowns") ∧
    (∀ score : String → String → Nat,
      score "hash browns" "hashbrowns" = 89 →
      findVal (resolutionMap score
          [⟨"hash browns", "sides", 2⟩, ⟨"hashbrowns", "sides", 1⟩])
        ("hashbrowns", "sides") = some "hash browns") := by
  refine ⟨?_, ?_, ?_⟩
  · intro score rows n c a h hne
    rcases resolutionMap_mapOk score rows n c a h with rfl | ⟨hs, hl⟩
    · exact absurd rfl hne
    · exact ⟨hs, hl⟩
  · intro score h
    simp [resolutionMap, outerStep, innerStep, keyOf, findVal, h]
  · intro score h
    simp [resolutionMap, outerStep, innerStep, keyOf, findVal, h]

/-- C1 witness: the main conjunct applied to the concrete two-group frame
with the constant scorer 89, which merges `"hashbrowns"` into
`"hash browns"`; and the boundary conjuncts applied to constant scorers. -/
theorem c1_resolution_merge_witness :
    (88 < (fun _ _ => 89 : String → String → Nat) "hash browns" "hashbrowns" ∧
      findVal (resolutionMap (fun _ _ => 89)
          [⟨"hash browns", "sides", 2⟩, ⟨"hashbrowns", "sides", 1⟩])
        ("hash browns", "sides") = some "hash browns") ∧
    findVal (resolutionMap (fun _ _ => 88)
        [⟨"hash browns", "sides", 2⟩, ⟨"hashbrowns", "sides", 1⟩])
      ("hashbrowns", "sides") = some "hashbrowns" ∧
    findVal (resolutionMap (fun _ _ => 89)
        [⟨"hash browns", "sides", 2⟩, ⟨"hashbrowns", "sides", 1⟩])
      ("hashbrowns", "sides") = some "hash browns" :=
  ⟨c1_resolution_merge_threshold_and_category.1 (fun _ _ => 89)
      [⟨"hash browns", "sides", 2⟩, ⟨"hashbrowns", "sides", 1⟩]
      "hashbrowns" "sides" "hash browns" (by decide) (by decide),
    c1_resolution_merge_threshold_and_category.2.1 (fun _ _ => 88) rfl,
    c1_resolution_merge_threshold_and_category.2.2 (fun _ _ => 89) rfl⟩

/-! ## The walk order of the resolution pass (claim C4) -/

theorem char_toNat_inj {a b : Char} (h : a.toNat = b.toNat) : a = b := by
  have h2 := congrArg Char.ofNat h
  rwa [Char.ofNat_toNat, Char.ofNat_toNat] at h2

theorem lexLt_trans (a : List Char) :
    ∀ b c, lexLt a b = true → lexLt b c = true → lexLt a c = true := by
  induction a with
  | nil =>
    intro b c hab hbc
    cases c with
    | nil =>
      cases b <;> simp [lexLt] at hbc
    | cons z zs => rfl
  | cons x xs ih =>
    intro b c hab hbc
    cases b with
    | nil => simp [lexLt] at hab
    | cons y ys =>
      cases c with
      | nil => simp [lexLt] at hbc
      | cons z zs =>
        simp only [lexLt] at hab hbc ⊢
        by_cases h1 : x.toNat < y.toNat
        · by_cases h2 : y.toNat < z.toNat
          · rw [if_pos (Nat.lt_trans h1 h2)]
          · rw [if_neg h2] at hbc
            by_cases h3 : z.toNat < y.toNat
            · rw [if_pos h3] at hbc
              cases hbc
            · have hyz : y.toNat = z.toNat := by omega
              rw [if_pos (hyz ▸ h1)]
        · rw [if_neg h1] at hab
          by_cases h1b : y.toNat < x.toNat
          · rw [if_pos h1b] at hab
            cases hab
          · rw [if_neg h1b] at hab
            have hxy : x.toNat = y.toNat := by omega
            by_cases h2 : y.toNat < z.toNat
            · rw [if_pos (hxy ▸ h2)]
            · rw [if_neg h2] at hbc
              by_cases h3 : z.toNat < y.toNat
              · rw [if_pos h3] at hbc
                cases hbc
              · rw [if_neg h3] at hbc
                have hxz : ¬ x.toNat < z.toNat := by omega
                have hzx : ¬ z.toNat < x.toNat := by omega
                rw [if_neg hxz, if_neg hzx]
                exact ih ys zs hab hbc

theorem lexLt_eq_of_not (a : List Char) :
    ∀ b, lexLt a b = false → lexLt b a = false → a = b := by
  induction a with
  | nil =>
    intro b h1 h2
    cases b with
    | nil => rfl
    | cons y ys => simp [lexLt] at h1
  | cons x xs ih =>
    intro b h1 h2
    cases b with
    | nil => simp [lexLt] at h2
    | cons y ys =>
      simp only [lexLt] at h1 h2
      by_cases hxy : x.toNat < y.toNat
      · rw [if_pos hxy] at h1
        cases h1
      · rw [if_neg hxy] at h1
        by_cases hyx : y.toNat < x.toNat
        · rw [if_pos hyx] at h2
          cases h2
        · rw [if_neg hyx] at h1
          rw [if_neg hyx, if_neg hxy] at h2
          have hc : x = y := char_toNat_inj (by omega)
          subst hc
          rw [ih ys h1 h2]

theorem strLtB_trans (s t u : String) (h1 : strLtB s t = true)
    (h2 : strLtB t u = true) : strLtB s u = true :=
  lexLt_trans s.toList t.toList u.toList h1 h2

theorem strLtB_eq_of_not (s t : String) (h1 : strLtB s t = false)
    (h2 : strLtB t s = false) : s = t := by
  rcases s with ⟨sd⟩
  rcases t with ⟨td⟩
  have : sd = td := lexLt_eq_of_not sd td h1 h2
  rw [this]

theorem keyLtB_trans (a b c : RKey) (hab : keyLtB a b = true)
    (hbc : keyLtB b c = true) : keyLtB a c = true := by
  simp only [keyLtB, Bool.or_eq_true, Bool.and_eq_true, beq_iff_eq]
    at hab hbc ⊢
  rcases hab with h1 | ⟨he1, h1⟩
  · rcases hbc with h2 | ⟨he2, h2⟩
    · exact Or.inl (strLtB_trans _ _ _ h1 h2)
    · exact Or.inl (he2 ▸ h1)
  · rcases hbc with h2 | ⟨he2, h2⟩
    · exact Or.inl (he1 ▸ h2)
    · exact Or.inr ⟨he1.trans he2, strLtB_trans _ _ _ h1 h2⟩

theorem keyLtB_total (a b : RKey) (h1 : keyLtB a b = false)
    (h2 : keyLtB b a = false) : a = b := by
  simp only [keyLtB, Bool.or_eq_false_iff, Bool.and_eq_false_iff,
    beq_eq_false_iff_ne, ne_eq] at h1 h2
  have he : a.1 = b.1 := strLtB_eq_of_not _ _ h1.1 h2.1
  rcases h1.2 with hne | hs1
  · exact absurd he hne
  · rcases h2.2 with hne | hs2
    · exact absurd he.symm hne
    · have he2 : a.2 = b.2 := strLtB_eq_of_not _ _ hs1 hs2
      exact Prod.ext he he2

/-- The order relation on count rows: strictly ascending group key (the
pandas groupby key order, which also makes keys unique). -/
def keyRel (a b : PC) : Prop :=
  keyLtB (keyOf a) (keyOf b) = true

/-- The amended walk order: descending count, ties in ascending
lexicographic key order. -/
def walkRel (a b : PC) : Prop :=
  b.count < a.count ∨ (a.count = b.count ∧ keyLtB (keyOf a) (keyOf b) = true)

theorem addKey_key_mem (k : RKey) (l : List PC) (r : PC)
    (h : r ∈ addKey k l) : keyOf r = k ∨ keyOf r ∈ l.map keyOf := by
  induction l with
  | nil =>
    rcases List.mem_singleton.mp h with rfl
    exact Or.inl rfl
  | cons x xs ih =>
    rw [addKey] at h
    split at h
    · rcases List.mem_cons.mp h with rfl | hmem
      · exact Or.inr (List.mem_cons.mpr (Or.inl rfl))
      · exact Or.inr (List.mem_cons.mpr (Or.inr (List.mem_map_of_mem keyOf hmem)))
    · split at h
      · rcases List.mem_cons.mp h with rfl | hmem
        · exact Or.inr (List.mem_cons.mpr (Or.inl rfl))
        · rcases ih hmem with hk | hin
          · exact Or.inl hk
          · exact Or.inr (List.mem_cons.mpr (Or.inr hin))
      · rcases List.mem_cons.mp h with rfl | hmem
        · exact Or.inl rfl
        · rcases List.mem_cons.mp hmem with rfl | hmem2
          · exact Or.inr (List.mem_cons.mpr (Or.inl rfl))
          · exact Or.inr (List.mem_cons.mpr (Or.inr (List.mem_map_of_mem keyOf hmem2)))

theorem addKey_pairwise (k : RKey) (l : List PC)
    (h : l.Pairwise keyRel) : (addKey k l).Pairwise keyRel := by
  induction l with
  | nil =>
    rw [addKey]
    exact List.pairwise_singleton keyRel ⟨k.1, k.2, 1⟩
  | cons x xs ih =>
    rcases List.pairwise_cons.mp h with ⟨hhead, htail⟩
    rw [addKey]
    by_cases heq : keyOf x = k
    · rw [if_pos heq]
      exact List.pairwise_cons.mpr ⟨fun y hy => hhead y hy, htail⟩
    · rw [if_neg heq]
      by_cases hlt : keyLtB (keyOf x) k = true
      · rw [if_pos hlt]
        refine List.pairwise_cons.mpr ⟨?_, ih htail⟩
        intro y hy
        rcases addKey_key_mem k xs y hy with hk | hin
        · show keyLtB (keyOf x) (keyOf y) = true
          rw [hk]
          exact hlt
        · rcases List.mem_map.mp hin with ⟨y2, hy2, hkey⟩
          show keyLtB (keyOf x) (keyOf y) = true
          rw [← hkey]
          exact hhead y2 hy2
      · rw [if_neg hlt]
        have hkx : keyLtB k (keyOf x) = true := by
          cases hkk : keyLtB k (keyOf x) with
          | true => rfl
          | false =>
            have hxe : keyOf x = k := keyLtB_total (keyOf x) k
              (by cases hx2 : keyLtB (keyOf x) k with
                  | true => exact absurd hx2 hlt
                  | false => rfl) hkk
            exact absurd hxe heq
        refine List.pairwise_cons.mpr ⟨?_, h⟩
        intro y hy
        rcases List.mem_cons.mp hy with rfl | hmem
        · exact hkx
        · exact keyLtB_trans k (keyOf x) (keyOf y) hkx (hhead y hmem)

theorem groupCounts_fold_pairwise (pairs : List RKey) :
    ∀ acc : List PC, acc.Pairwise keyRel →
      (pairs.foldl (fun acc k => addKey k acc) acc).Pairwise keyRel := by
  induction pairs with
  | nil => exact fun acc h => h
  | cons k pairs ih =>
    intro acc h
    rw [List.foldl_cons]
    exact ih (addKey k acc) (addKey_pairwise k acc h)

theorem groupCounts_pairwise (pairs : List RKey) :
    (groupCounts pairs).Pairwise keyRel :=
  groupCounts_fold_pairwise pairs [] (by simp)

theorem insertDesc_mem (r x : PC) (l : List PC) (h : x ∈ insertDesc r l) :
    x = r ∨ x ∈ l := by
  induction l with
  | nil => exact Or.inl (List.mem_singleton.mp h)
  | cons y ys ih =>
    rw [insertDesc] at h
    split at h
    · rcases List.mem_cons.mp h with rfl | hmem
      · exact Or.inr (List.mem_cons.mpr (Or.inl rfl))
      · rcases ih hmem with rfl | hin
        · exact Or.inl rfl
        · exact Or.inr (List.mem_cons.mpr (Or.inr hin))
    · rcases List.mem_cons.mp h with rfl | hmem
      · exact Or.inl rfl
      · exact Or.inr hmem

theorem insertDesc_pairwise (r : PC) (l : List PC)
    (hl : l.Pairwise walkRel)
    (hkey : ∀ x ∈ l, x.count = r.count → keyLtB (keyOf x) (keyOf r) = true) :
    (insertDesc r l).Pairwise walkRel := by
  induction l with
  | nil =>
    rw [insertDesc]
    exact List.pairwise_singleton walkRel r
  | cons x xs ih =>
    rcases List.pairwise_cons.mp hl with ⟨hhead, htail⟩
    rw [insertDesc]
    split
    · rename_i hle
      refine List.pairwise_cons.mpr ⟨?_, ?_⟩
      · intro y hy
        rcases insertDesc_mem r y xs hy with rfl | hin
        · rcases Nat.lt_or_ge y.count x.count with hlt | hge
          · exact Or.inl hlt
          · have heq : x.count = y.count := Nat.le_antisymm hge hle
            exact Or.inr ⟨heq, hkey x (List.mem_cons_self x xs) heq⟩
        · exact hhead y hin
      · exact ih htail fun y hy hc =>
          hkey y (List.mem_cons_of_mem x hy) hc
    · rename_i hgt
      have hxr : x.count < r.count := Nat.lt_of_not_le hgt
      refine List.pairwise_cons.mpr ⟨?_, hl⟩
      intro y hy
      rcases List.mem_cons.mp hy with rfl | hmem
      · exact Or.inl hxr
      · rcases hhead y hmem with hlt | ⟨heq, _⟩
        · exact Or.inl (Nat.lt_trans hlt hxr)
        · exact Or.inl (heq ▸ hxr)

theorem sort_fold_pairwise (rs : List PC) :
    ∀ acc : List PC, acc.Pairwise walkRel →
      (∀ x ∈ acc, ∀ y ∈ rs, keyLtB (keyOf x) (keyOf y) = true) →
      rs.Pairwise keyRel →
      (rs.foldl (fun acc r => insertDesc r acc) acc).Pairwise walkRel := by
  induction rs with
  | nil => exact fun acc hacc _ _ => hacc
  | cons r rs ih =>
    intro acc hacc hcross hrs
    rcases List.pairwise_cons.mp hrs with ⟨hrhead, hrtail⟩
    rw [List.foldl_cons]
    refine ih (insertDesc r acc) ?_ ?_ hrtail
    · exact insertDesc_pairwise r acc hacc fun x hx _ =>
        hcross x hx r (List.mem_cons_self r rs)
    · intro x hx y hy
      rcases insertDesc_mem r x acc hx with rfl | hin
      · exact hrhead y hy
      · exact hcross x hin y (List.mem_cons_of_mem r hy)

theorem sortByCountDesc_pairwise (rows : List PC)
    (h : rows.Pairwise keyRel) :
    (sortByCountDesc rows).Pairwise walkRel :=
  sort_fold_pairwise rows [] (by simp) (by simp) h

/-- C4 (amended): the resolution pass walks the groups in descending order
of occurrence count, and groups with equal counts are walked in ascending
lexicographic order of their `(canonical_name, category)` key — the order
the pandas groupby key sort leaves behind under a stable count sort — not
in insertion order of first appearance.  The order is still deterministic
in the item list. -/
theorem c4_walk_order_sorted (items : List Item) :
    (resolutionRows items).Pairwise walkRel :=
  sortByCountDesc_pairwise _ (groupCounts_pairwise _)

/-- Modelled from the spec: the walk order the claim asserts — distinct
group keys in order of first appearance, stably sorted by descending
count. -/
def firstSeenKeys (pairs : List RKey) : List RKey :=
  pairs.foldl (fun acc k => if k ∈ acc then acc else acc ++ [k]) []

/-- Modelled from the spec: group rows in first-appearance order with their
counts, stably sorted by descending count. -/
def specInsertionOrderRows (items : List Item) : List PC :=
  let pairs := items.map fun it => (it.canonical_name, catValue it.category)
  sortByCountDesc ((firstSeenKeys pairs).map fun k => ⟨k.1, k.2, pairs.count k⟩)

/-- C4 counterexample: with two once-seen same-category groups first seen
in the order `"zebra"`, `"apple"`, the claimed insertion-order tie-break
walks `"zebra"` first, but the code's groupby key sort walks the
lexicographically smaller `"apple"` first. -/
theorem c4_tiebreak_counterexample :
    resolutionRows [⟨"zebra", Cat.sides⟩, ⟨"apple", Cat.sides⟩] =
      [⟨"apple", "sides", 1⟩, ⟨"zebra", "sides", 1⟩] ∧
    specInsertionOrderRows [⟨"zebra", Cat.sides⟩, ⟨"apple", Cat.sides⟩] =
      [⟨"zebra", "sides", 1⟩, ⟨"apple", "sides", 1⟩] ∧
    resolutionRows [⟨"zebra", Cat.sides⟩, ⟨"apple", Cat.sides⟩] ≠
      specInsertionOrderRows [⟨"zebra", Cat.sides⟩, ⟨"apple", Cat.sides⟩] := by
  refine ⟨by decide, by decide, by decide⟩

/-! ## Per-source failure boundary (`process_and_clean_data` and the
adapter `try/except` blocks)

Each transformer wraps its whole body in `try/except Exception`, appending
orders (and their items) to the shared registry record by record; an
exception thrown while processing a record aborts the loop and is swallowed
at the adapter boundary, after which `process_and_clean_data`
unconditionally runs the remaining adapters, entity resolution, the
conflict pass and product materialisation.  A source is modelled as the
list of its per-record computations, each either `ok` (an order with its
line items) or `error` (the record whose processing raises). -/

/-- Orders appended before the first raising record; the raise aborts the
rest of the source. -/
def successRun {α : Type} : List (Except Unit α) → List α
  | [] => []
  | .ok a :: rs => a :: successRun rs
  | .error _ :: _ => []

/-- One order as a source adapter contributes it: its composite id and its
line items. -/
structure SrcOrder where
  oid : String
  items : List Item
deriving DecidableEq

/-- One adapter call: appends its successfully processed prefix to the
registry's order list, exceptions caught at the boundary. -/
def runAdapter (recs : List (Except Unit SrcOrder))
    (orders : List SrcOrder) : List SrcOrder :=
  orders ++ successRun recs

/-- `_create_products_from_order_items` via
`ModelRegistry.get_or_create_product`: one product per distinct
`(canonical_name, category)` of the final items, in first-seen order. -/
def materialize_products (items : List Item) : List (String × Cat) :=
  items.foldl
    (fun acc it =>
      if (it.canonical_name, it.category) ∈ acc then acc
      else acc ++ [(it.canonical_name, it.category)])
    []

/-- The registry contents relevant to claim C8 after the full pipeline. -/
structure PipeResult where
  orders : List SrcOrder
  order_items : List Item
  products : List (String × Cat)
deriving DecidableEq

/-- `process_and_clean_data`: run the three adapters in order against the
shared registry, then entity resolution, then the conflict pass, then
product materialisation. -/
def process_and_clean_data (score : String → String → Nat)
    (toast doordash square : List (Except Unit SrcOrder)) : PipeResult :=
  let o1 := runAdapter toast []
  let o2 := runAdapter doordash o1
  let o3 := runAdapter square o2
  let items0 := (o3.map SrcOrder.items).flatten
  let items1 := perform_entity_resolution_on_models score items0
  let items2 := resolve_category_conflicts items1
  ⟨o3, items2, materialize_products items2⟩

theorem successRun_ok_prefix {α : Type} (pre : List α)
    (junk : List (Except Unit α)) :
    successRun (pre.map Except.ok ++ Except.error () :: junk) = pre := by
  induction pre with
  | nil => rfl
  | cons a rest ih =>
    rw [List.map_cons, List.cons_append]
    rw [show successRun (Except.ok a :: (rest.map Except.ok ++
      Except.error () :: junk)) = a :: successRun (rest.map Except.ok ++
      Except.error () :: junk) from rfl, ih]

/-- C8 counterexample: the claim says a source whose processing raises
contributes zero orders.  A Toast payload whose second record raises keeps
the first record's order in the registry — one order, not zero. -/
theorem c8_zero_contribution_counterexample :
    (process_and_clean_data (fun _ _ => 0)
        [Except.ok ⟨"TOAST_1", []⟩, Except.error (), Except.ok ⟨"TOAST_2", []⟩]
        [] []).orders = [⟨"TOAST_1", []⟩] ∧
    ([⟨"TOAST_1", []⟩] : List SrcOrder) ≠ ([] : List SrcOrder) := by
  refine ⟨by decide, by decide⟩

/-- C8 (amended): an exception while processing a source is caught at the
adapter boundary and the run continues — the failed source contributes
exactly the orders processed before the raising record (not necessarily
zero), the other sources' contributions are unaffected, and entity
resolution, the conflict pass and product materialisation still run over
everything loaded. -/
theorem c8_adapter_boundary (score : String → String → Nat)
    (pre : List SrcOrder) (junk d s : List (Except Unit SrcOrder)) :
    (process_and_clean_data score
        (pre.map Except.ok ++ Except.error () :: junk) d s).orders =
      pre ++ successRun d ++ successRun s ∧
    ∀ t : List (Except Unit SrcOrder),
      (process_and_clean_data score t d s).order_items =
        resolve_category_conflicts (perform_entity_resolution_on_models score
          (((process_and_clean_data score t d s).orders.map
            SrcOrder.items).flatten)) ∧
      (process_and_clean_data score t d s).products =
        materialize_products ((process_and_clean_data score t d s).order_items) := by
  constructor
  · show ([] ++ successRun (pre.map Except.ok ++ Except.error () :: junk))
      ++ successRun d ++ successRun s = pre ++ successRun d ++ successRun s
    rw [List.nil_append, successRun_ok_prefix]
  · intro t
    exact ⟨rfl, rfl⟩

end ClaveModel
